import Mathlib

/-!
Verification of the block lifecycle cache of `luxfi/vms`
(`components/chain/block.go`).

The Go code wraps an opaque `Block` in a `BlockWrapper` holding a
back-reference to a shared `State` with three caches
(`unverifiedBlocks`, `verifiedBlocks`, `decidedBlocks`) and a chain-tip
pointer (`lastAcceptedBlock`).  We embed the wrapper methods as pure
state-passing functions.  Go errors become `Option Err` (`none` = `nil`),
the delegated results of the opaque underlying block are fields of the
`Block` record, and the optional `block.WithVerifyContext` capability is
an `Option` field.
-/

namespace LuxVms

/-- Block identifiers (`ids.ID` in Go), abstracted to naturals. -/
abbrev ID := Nat

/-- Opaque error values (`error` in Go), abstracted to naturals. -/
abbrev Err := Nat

/-- The optional `block.WithVerifyContext` capability of an underlying
block: the results its two methods return when delegated to. -/
structure WithVerifyContextCap where
  /-- Result of `ShouldVerifyWithContext(ctx)`: a `(bool, error)` pair. -/
  shouldVerifyWithContext : Bool × Option Err
  /-- Result of `VerifyWithContext(ctx, blockCtx)`: an `error`. -/
  verifyWithContext : Option Err
  deriving DecidableEq

/-- An underlying (opaque, VM-provided) block: its identifier together
with the results its delegated operations return.  `withVerifyCtx = none`
models a block that does not implement `block.WithVerifyContext`. -/
structure Block where
  id : ID
  verifyResult : Option Err
  acceptResult : Option Err
  rejectResult : Option Err
  withVerifyCtx : Option WithVerifyContextCap
  deriving DecidableEq

/-- Modelled from the spec: the bounded eviction cache used for
`unverifiedBlocks` and `decidedBlocks` (its implementation is not under
`src/`; spec section 4.1 gives its contract: `Put` inserts/overwrites and
may evict least-recently-used *other* entries when capacity is exceeded,
`Evict` removes unconditionally and is a no-op on an absent key).
Entries are kept most-recently-used first. -/
structure Cache where
  capacity : Nat
  entries : List (ID × Block)
  deriving DecidableEq

/-- `Evict(id)`: remove an entry unconditionally, no-op if absent. -/
def Cache.evict (c : Cache) (k : ID) : Cache :=
  { c with entries := c.entries.filter (fun e => e.1 ≠ k) }

/-- `Put(id, value)`: insert/overwrite at the most-recently-used slot and
drop least-recently-used other entries beyond capacity. -/
def Cache.put (c : Cache) (k : ID) (v : Block) : Cache :=
  { c with
    entries := (k, v) :: (c.entries.filter (fun e => e.1 ≠ k)).take (c.capacity - 1) }

/-- `Get(id)`: lookup, `none` when not found. -/
def Cache.get (c : Cache) (k : ID) : Option Block :=
  (c.entries.find? (fun e => e.1 = k)).map Prod.snd

/-- Key membership in a cache. -/
def Cache.containsKey (c : Cache) (k : ID) : Bool :=
  c.entries.any (fun e => e.1 = k)

/-- Lookup in an association list modelling a Go `map[ids.ID]*BlockWrapper`. -/
def mapGet (m : List (ID × Block)) (k : ID) : Option Block :=
  (m.find? (fun e => e.1 = k)).map Prod.snd

/-- Go `delete(m, k)`. -/
def mapDelete (m : List (ID × Block)) (k : ID) : List (ID × Block) :=
  m.filter (fun e => e.1 ≠ k)

/-- Go `m[k] = v`. -/
def mapInsert (m : List (ID × Block)) (k : ID) (v : Block) : List (ID × Block) :=
  (k, v) :: mapDelete m k

/-- Key membership in the association list. -/
def mapContainsKey (m : List (ID × Block)) (k : ID) : Bool :=
  m.any (fun e => e.1 = k)

/-- Modelled from the spec: the shared `State` (`LifecycleState`) record;
its Go declaration is not under `src/`, but `block.go` uses exactly these
four fields: an eviction cache of unverified blocks, a plain map of
verified blocks, an eviction cache of decided blocks and the tip pointer. -/
structure State where
  unverifiedBlocks : Cache
  verifiedBlocks : List (ID × Block)
  decidedBlocks : Cache
  lastAcceptedBlock : Option Block
  deriving DecidableEq

/-- `BlockWrapper.Verify`: delegate to the wrapped block's `Verify`; on
error return it with no cache mutation; on success evict the identifier
from `unverifiedBlocks` and insert this handle into `verifiedBlocks`. -/
def verify (b : Block) (s : State) : Option Err × State :=
  match b.verifyResult with
  | some e => (some e, s)
  | none =>
      (none,
        { s with
          unverifiedBlocks := s.unverifiedBlocks.evict b.id
          verifiedBlocks := mapInsert s.verifiedBlocks b.id b })

/-- `BlockWrapper.VerifyWithContext`: if the wrapped block implements
`block.WithVerifyContext`, probe `ShouldVerifyWithContext`; on probe
error return it; if the probe says yes, return the delegated
`VerifyWithContext` result directly; otherwise fall back to `Verify`. -/
def verifyWithContext (b : Block) (s : State) : Option Err × State :=
  match b.withVerifyCtx with
  | some cap =>
      match cap.shouldVerifyWithContext with
      | (_, some e) => (some e, s)
      | (true, none) => (cap.verifyWithContext, s)
      | (false, none) => verify b s
  | none => verify b s

/-- `BlockWrapper.ShouldVerifyWithContext`: `(false, nil)` when the
wrapped block lacks the capability, otherwise the delegated probe result.
The Go method reads no cache and writes no cache, so it is pure. -/
def shouldVerifyWithContext (b : Block) : Bool × Option Err :=
  match b.withVerifyCtx with
  | none => (false, none)
  | some cap => cap.shouldVerifyWithContext

/-- `BlockWrapper.Accept`: delete the identifier from `verifiedBlocks`,
put this handle into `decidedBlocks`, set `lastAcceptedBlock` to this
handle, then delegate to the wrapped block's `Accept` and return its
result. -/
def accept (b : Block) (s : State) : Option Err × State :=
  (b.acceptResult,
    { s with
      verifiedBlocks := mapDelete s.verifiedBlocks b.id
      decidedBlocks := s.decidedBlocks.put b.id b
      lastAcceptedBlock := some b })

/-- `BlockWrapper.Reject`: delete the identifier from `verifiedBlocks`,
put this handle into `decidedBlocks`, then delegate to the wrapped
block's `Reject` and return its result. -/
def reject (b : Block) (s : State) : Option Err × State :=
  (b.rejectResult,
    { s with
      verifiedBlocks := mapDelete s.verifiedBlocks b.id
      decidedBlocks := s.decidedBlocks.put b.id b })

/-- One engine call on a `BlockWrapper` sharing the common `State`:
which wrapper method runs, on a handle wrapping which block. -/
inductive Op where
  | verify (b : Block)
  | verifyWithContext (b : Block)
  | shouldVerifyWithContext (b : Block)
  | accept (b : Block)
  | reject (b : Block)
  deriving DecidableEq

/-- The state reached after executing one engine call
(`ShouldVerifyWithContext` is pure, so it leaves the state unchanged). -/
def step (s : State) : Op → State
  | Op.verify b => (verify b s).2
  | Op.verifyWithContext b => (verifyWithContext b s).2
  | Op.shouldVerifyWithContext _ => s
  | Op.accept b => (accept b s).2
  | Op.reject b => (reject b s).2

/-- The state reached after executing a sequence of engine calls. -/
def run (s : State) : List Op → State
  | [] => s
  | op :: ops => run (step s op) ops

/-- Identifier membership in `unverifiedBlocks`. -/
def inUnverified (s : State) (i : ID) : Bool :=
  s.unverifiedBlocks.containsKey i

/-- Identifier membership in `verifiedBlocks`. -/
def inVerified (s : State) (i : ID) : Bool :=
  mapContainsKey s.verifiedBlocks i

/-- Identifier membership in `decidedBlocks`. -/
def inDecided (s : State) (i : ID) : Bool :=
  s.decidedBlocks.containsKey i

/-- Invariant I1 at one identifier: it occurs in at most one of the
three caches. -/
def atMostOneCache (s : State) (i : ID) : Bool :=
  (cond (inUnverified s i) 1 0) + (cond (inVerified s i) 1 0)
    + (cond (inDecided s i) 1 0) ≤ 1

/-- A fresh, empty lifecycle state with the given cache capacities. -/
def emptyState (unverifiedCap decidedCap : Nat) : State :=
  { unverifiedBlocks := { capacity := unverifiedCap, entries := [] }
    verifiedBlocks := []
    decidedBlocks := { capacity := decidedCap, entries := [] }
    lastAcceptedBlock := none }

end LuxVms

namespace LuxVms

/-! ### Basic cache and map lemmas -/

theorem containsKey_evict_iff (c : Cache) (k i : ID) :
    (c.evict k).containsKey i = true ↔ (i ≠ k ∧ c.containsKey i = true) := by
  simp only [Cache.containsKey, Cache.evict, List.any_eq_true, List.mem_filter,
    decide_eq_true_eq, ne_eq]
  constructor
  · rintro ⟨e, ⟨he, hk⟩, hi⟩
    exact ⟨by simpa [hi] using hk, e, he, hi⟩
  · rintro ⟨hik, e, he, hi⟩
    exact ⟨e, ⟨he, by simpa [hi] using hik⟩, hi⟩

theorem containsKey_put_self (c : Cache) (k : ID) (v : Block) :
    (c.put k v).containsKey k = true := by
  simp [Cache.containsKey, Cache.put]

theorem containsKey_put_of_ne (c : Cache) (k i : ID) (v : Block)
    (hne : i ≠ k) (h : (c.put k v).containsKey i = true) :
    c.containsKey i = true := by
  simp only [Cache.containsKey, Cache.put, List.any_cons, List.any_eq_true,
    decide_eq_true_eq, Bool.or_eq_true] at h ⊢
  rcases h with h | ⟨e, he, hi⟩
  · exact absurd h.symm hne
  · exact ⟨e, List.mem_of_mem_filter (List.take_subset _ _ he), hi⟩

theorem get_evict_self (c : Cache) (k : ID) :
    (c.evict k).get k = none := by
  simp only [Cache.get, Cache.evict]
  rw [Option.map_eq_none', List.find?_eq_none]
  intro e he
  simp only [List.mem_filter, decide_eq_true_eq] at he
  simpa using he.2

theorem mapContainsKey_delete_iff (m : List (ID × Block)) (k i : ID) :
    mapContainsKey (mapDelete m k) i = true ↔ (i ≠ k ∧ mapContainsKey m i = true) := by
  simp only [mapContainsKey, mapDelete, List.any_eq_true, List.mem_filter,
    decide_eq_true_eq, ne_eq]
  constructor
  · rintro ⟨e, ⟨he, hk⟩, hi⟩
    exact ⟨by simpa [hi] using hk, e, he, hi⟩
  · rintro ⟨hik, e, he, hi⟩
    exact ⟨e, ⟨he, by simpa [hi] using hik⟩, hi⟩

theorem mapContainsKey_insert_self (m : List (ID × Block)) (k : ID) (v : Block) :
    mapContainsKey (mapInsert m k v) k = true := by
  simp [mapContainsKey, mapInsert]

theorem mapContainsKey_insert_of_ne (m : List (ID × Block)) (k i : ID) (v : Block)
    (hne : i ≠ k) :
    mapContainsKey (mapInsert m k v) i = mapContainsKey m i := by
  have hki : (decide ((k : ID) = i)) = false := by
    simp only [decide_eq_false_iff_not]
    exact fun h => hne h.symm
  simp only [mapContainsKey, mapInsert, List.any_cons, hki, Bool.false_or]
  apply Bool.eq_iff_iff.mpr
  constructor
  · intro h
    exact (mapContainsKey_delete_iff m k i).mp h |>.2
  · intro h
    exact (mapContainsKey_delete_iff m k i).mpr ⟨hne, h⟩

theorem mapGet_insert_self (m : List (ID × Block)) (k : ID) (v : Block) :
    mapGet (mapInsert m k v) k = some v := by
  simp [mapGet, mapInsert, List.find?]

theorem mapGet_delete_self (m : List (ID × Block)) (k : ID) :
    mapGet (mapDelete m k) k = none := by
  simp only [mapGet, mapDelete]
  rw [Option.map_eq_none', List.find?_eq_none]
  intro e he
  simp only [List.mem_filter, decide_eq_true_eq] at he
  simpa using he.2

theorem containsKey_evict_self (c : Cache) (k : ID) :
    (c.evict k).containsKey k = false := by
  cases h : (c.evict k).containsKey k
  · rfl
  · exact absurd ((containsKey_evict_iff c k k).mp h).1 (by simp)

theorem mapContainsKey_delete_self (m : List (ID × Block)) (k : ID) :
    mapContainsKey (mapDelete m k) k = false := by
  cases h : mapContainsKey (mapDelete m k) k
  · rfl
  · exact absurd ((mapContainsKey_delete_iff m k k).mp h).1 (by simp)

/-! ### Concrete fixtures used by witnesses and counterexamples -/

/-- A plain block (no optional capability) whose delegated operations all
succeed. -/
def blkA : Block :=
  { id := 1, verifyResult := none, acceptResult := none, rejectResult := none
    withVerifyCtx := none }

/-- A block whose delegated `Verify` fails with error code `7`. -/
def blkBadVerify : Block :=
  { id := 2, verifyResult := some 7, acceptResult := none, rejectResult := none
    withVerifyCtx := none }

/-- A block whose delegated `Accept` fails with error `3` and whose
delegated `Reject` fails with error `4`. -/
def blkBadDecide : Block :=
  { id := 3, verifyResult := none, acceptResult := some 3, rejectResult := some 4
    withVerifyCtx := none }

/-- A `block.WithVerifyContext` capability whose probe answers yes and
whose context-aware verification succeeds. -/
def capYes : WithVerifyContextCap :=
  { shouldVerifyWithContext := (true, none), verifyWithContext := none }

/-- A block implementing `block.WithVerifyContext` with `capYes`. -/
def blkCtx : Block :=
  { id := 5, verifyResult := none, acceptResult := none, rejectResult := none
    withVerifyCtx := some capYes }

/-- A state whose unverified cache holds `blkCtx` under its identifier. -/
def stateHoldingCtxBlk : State :=
  { unverifiedBlocks := { capacity := 2, entries := [(5, blkCtx)] }
    verifiedBlocks := []
    decidedBlocks := { capacity := 2, entries := [] }
    lastAcceptedBlock := none }

/-- A state whose unverified cache holds `blkA` under its identifier. -/
def stateHoldingBlkA : State :=
  { unverifiedBlocks := { capacity := 2, entries := [(1, blkA)] }
    verifiedBlocks := []
    decidedBlocks := { capacity := 2, entries := [] }
    lastAcceptedBlock := none }

/-! ### Claim theorems -/

/-- Claim C5: if the wrapped block's `Verify` returns an error, the
wrapper's `Verify` returns that same error and leaves the entire state —
`unverifiedBlocks`, `verifiedBlocks`, `decidedBlocks` and
`lastAcceptedBlock` — unchanged. -/
theorem verify_error_returns_error_no_mutation (b : Block) (s : State) (e : Err)
    (h : b.verifyResult = some e) :
    verify b s = (some e, s) := by
  simp [verify, h]

/-- Witness for C5 at a concrete failing block and a concrete state. -/
theorem verify_error_returns_error_no_mutation_witness :
    blkBadVerify.verifyResult = some 7 ∧
      verify blkBadVerify (emptyState 2 2) = (some 7, emptyState 2 2) :=
  ⟨rfl, verify_error_returns_error_no_mutation blkBadVerify (emptyState 2 2) 7 rfl⟩

/-- Claim C6: if the wrapped block's `Verify` succeeds, the wrapper's
`Verify` returns `nil`, the identifier is no longer found in
`unverifiedBlocks` (its `Get` returns not-found), and `verifiedBlocks`
maps the identifier to this handle. -/
theorem verify_success_moves_to_verified (b : Block) (s : State)
    (h : b.verifyResult = none) :
    (verify b s).1 = none ∧
      inUnverified (verify b s).2 b.id = false ∧
      (verify b s).2.unverifiedBlocks.get b.id = none ∧
      mapGet (verify b s).2.verifiedBlocks b.id = some b := by
  simp only [verify, h, inUnverified]
  exact ⟨trivial, containsKey_evict_self _ _, get_evict_self _ _, mapGet_insert_self _ _ _⟩

/-- Witness for C6 at a concrete succeeding block held in the
unverified cache. -/
theorem verify_success_moves_to_verified_witness :
    blkA.verifyResult = none ∧
      ((verify blkA stateHoldingBlkA).1 = none ∧
        inUnverified (verify blkA stateHoldingBlkA).2 blkA.id = false ∧
        (verify blkA stateHoldingBlkA).2.unverifiedBlocks.get blkA.id = none ∧
        mapGet (verify blkA stateHoldingBlkA).2.verifiedBlocks blkA.id = some blkA) :=
  ⟨rfl, verify_success_moves_to_verified blkA stateHoldingBlkA rfl⟩

/-- Claim C4: `Accept` removes the identifier from `verifiedBlocks`,
inserts it into `decidedBlocks`, sets `lastAcceptedBlock` to this handle
(so its identifier equals the block's), and delegates to the wrapped
block's `Accept`, returning its result. -/
theorem accept_moves_to_decided_and_sets_tip (b : Block) (s : State) :
    (accept b s).1 = b.acceptResult ∧
      inVerified (accept b s).2 b.id = false ∧
      inDecided (accept b s).2 b.id = true ∧
      (accept b s).2.lastAcceptedBlock = some b :=
  ⟨rfl, mapContainsKey_delete_self _ _, containsKey_put_self _ _ _, rfl⟩

/-- Claim C3: if the wrapped block's `Accept` (resp. `Reject`) returns
an error, the wrapper's `Accept` (resp. `Reject`) returns that error
unchanged and the cache moves are not rolled back: the identifier stays
out of `verifiedBlocks` and in `decidedBlocks`, and for `Accept` the tip
still points at this handle. -/
theorem accept_reject_error_no_rollback (b : Block) (s : State) (e f : Err)
    (ha : b.acceptResult = some e) (hr : b.rejectResult = some f) :
    (accept b s).1 = some e ∧
      inVerified (accept b s).2 b.id = false ∧
      inDecided (accept b s).2 b.id = true ∧
      (accept b s).2.lastAcceptedBlock = some b ∧
      (reject b s).1 = some f ∧
      inVerified (reject b s).2 b.id = false ∧
      inDecided (reject b s).2 b.id = true :=
  ⟨ha, mapContainsKey_delete_self _ _, containsKey_put_self _ _ _, rfl,
    hr, mapContainsKey_delete_self _ _, containsKey_put_self _ _ _⟩

/-- Witness for C3 at a concrete block whose delegated `Accept` and
`Reject` both fail. -/
theorem accept_reject_error_no_rollback_witness :
    blkBadDecide.acceptResult = some 3 ∧ blkBadDecide.rejectResult = some 4 ∧
      ((accept blkBadDecide (emptyState 2 2)).1 = some 3 ∧
        inVerified (accept blkBadDecide (emptyState 2 2)).2 blkBadDecide.id = false ∧
        inDecided (accept blkBadDecide (emptyState 2 2)).2 blkBadDecide.id = true ∧
        (accept blkBadDecide (emptyState 2 2)).2.lastAcceptedBlock = some blkBadDecide ∧
        (reject blkBadDecide (emptyState 2 2)).1 = some 4 ∧
        inVerified (reject blkBadDecide (emptyState 2 2)).2 blkBadDecide.id = false ∧
        inDecided (reject blkBadDecide (emptyState 2 2)).2 blkBadDecide.id = true) :=
  ⟨rfl, rfl, accept_reject_error_no_rollback blkBadDecide (emptyState 2 2) 3 4 rfl rfl⟩

/-- Claim C7: `Reject` performs exactly the moves `Accept` performs on
`verifiedBlocks` and `decidedBlocks` (identifier removed from the former,
inserted into the latter) but leaves `lastAcceptedBlock` unchanged. -/
theorem reject_symmetric_to_accept_keeps_tip (b : Block) (s : State) :
    (reject b s).2.verifiedBlocks = (accept b s).2.verifiedBlocks ∧
      (reject b s).2.decidedBlocks = (accept b s).2.decidedBlocks ∧
      inVerified (reject b s).2 b.id = false ∧
      inDecided (reject b s).2 b.id = true ∧
      (reject b s).2.lastAcceptedBlock = s.lastAcceptedBlock :=
  ⟨rfl, rfl, mapContainsKey_delete_self _ _, containsKey_put_self _ _ _, rfl⟩

/-- Claim C9: when the wrapped block does not implement
`block.WithVerifyContext`, `ShouldVerifyWithContext` returns
`(false, nil)` and, as an engine step, leaves the shared state untouched. -/
theorem shouldVerify_no_capability_false_nil (b : Block) (s : State)
    (h : b.withVerifyCtx = none) :
    shouldVerifyWithContext b = (false, none) ∧
      step s (Op.shouldVerifyWithContext b) = s := by
  simp [shouldVerifyWithContext, h, step]

/-- Witness for C9 at a concrete capability-free block. -/
theorem shouldVerify_no_capability_false_nil_witness :
    blkA.withVerifyCtx = none ∧
      (shouldVerifyWithContext blkA = (false, none) ∧
        step (emptyState 2 2) (Op.shouldVerifyWithContext blkA) = emptyState 2 2) :=
  ⟨rfl, shouldVerify_no_capability_false_nil blkA (emptyState 2 2) rfl⟩

/-- Claim C10: `Accept` and `Reject` never modify `unverifiedBlocks`; an
identifier present in `unverifiedBlocks` when they run stays there while
also being placed into `decidedBlocks`. -/
theorem accept_reject_leave_unverified_untouched (b : Block) (s : State)
    (h : inUnverified s b.id = true) :
    (accept b s).2.unverifiedBlocks = s.unverifiedBlocks ∧
      (reject b s).2.unverifiedBlocks = s.unverifiedBlocks ∧
      inUnverified (accept b s).2 b.id = true ∧
      inDecided (accept b s).2 b.id = true ∧
      inUnverified (reject b s).2 b.id = true ∧
      inDecided (reject b s).2 b.id = true :=
  ⟨rfl, rfl, h, containsKey_put_self _ _ _, h, containsKey_put_self _ _ _⟩

/-- Witness for C10 at a concrete state holding the block in the
unverified cache. -/
theorem accept_reject_leave_unverified_untouched_witness :
    inUnverified stateHoldingBlkA blkA.id = true ∧
      ((accept blkA stateHoldingBlkA).2.unverifiedBlocks = stateHoldingBlkA.unverifiedBlocks ∧
        (reject blkA stateHoldingBlkA).2.unverifiedBlocks = stateHoldingBlkA.unverifiedBlocks ∧
        inUnverified (accept blkA stateHoldingBlkA).2 blkA.id = true ∧
        inDecided (accept blkA stateHoldingBlkA).2 blkA.id = true ∧
        inUnverified (reject blkA stateHoldingBlkA).2 blkA.id = true ∧
        inDecided (reject blkA stateHoldingBlkA).2 blkA.id = true) :=
  ⟨by decide, accept_reject_leave_unverified_untouched blkA stateHoldingBlkA (by decide)⟩

/-- Claim C1 (failing input): for a block implementing
`block.WithVerifyContext` whose probe answers yes and whose context-aware
verification succeeds, `VerifyWithContext` returns success yet performs
none of the bookkeeping `Verify` performs: the identifier remains in
`unverifiedBlocks` and is never inserted into `verifiedBlocks`, the state
being returned entirely unchanged. -/
theorem verifyWithContext_true_branch_skips_bookkeeping :
    (verifyWithContext blkCtx stateHoldingCtxBlk).1 = none ∧
      (verifyWithContext blkCtx stateHoldingCtxBlk).2 = stateHoldingCtxBlk ∧
      inUnverified (verifyWithContext blkCtx stateHoldingCtxBlk).2 blkCtx.id = true ∧
      inVerified (verifyWithContext blkCtx stateHoldingCtxBlk).2 blkCtx.id = false := by
  decide

/-! ### Invariant I1 under engine-call sequences (C2) -/

/-- An engine call that respects the documented discipline in the state
where it runs: verification is not re-attempted on an identifier already
decided, and decisions are not taken on an identifier still sitting in
the unverified cache. -/
def okOp (s : State) : Op → Bool
  | Op.verify b => !(inDecided s b.id)
  | Op.verifyWithContext b => !(inDecided s b.id)
  | Op.shouldVerifyWithContext _ => true
  | Op.accept b => !(inUnverified s b.id)
  | Op.reject b => !(inUnverified s b.id)

/-- A call sequence each of whose calls respects the discipline in the
state it actually executes in. -/
def legalRun (s : State) : List Op → Bool
  | [] => true
  | op :: ops => okOp s op && legalRun (step s op) ops

theorem condOne_mono {a b : Bool} (h : a = true → b = true) :
    (cond a 1 0 : Nat) ≤ cond b 1 0 := by
  cases a
  · exact Nat.zero_le _
  · simp [h rfl]

theorem verify_preserves_atMostOne (b : Block) (s : State) (i : ID)
    (hInv : atMostOneCache s i = true) (hDec : inDecided s b.id = false) :
    atMostOneCache (verify b s).2 i = true := by
  cases hv : b.verifyResult with
  | some e => simpa [verify, hv] using hInv
  | none =>
      simp only [atMostOneCache, decide_eq_true_eq] at hInv ⊢
      by_cases hi : i = b.id
      · subst hi
        have hu : inUnverified (verify b s).2 b.id = false := by
          simpa [verify, hv, inUnverified] using containsKey_evict_self s.unverifiedBlocks b.id
        have hd : inDecided (verify b s).2 b.id = false := by
          simpa [verify, hv, inDecided] using hDec
        simp only [hu, hd, cond_false]
        cases inVerified (verify b s).2 b.id <;> simp
      · have hu : inUnverified (verify b s).2 i = true → inUnverified s i = true := by
          intro h
          simp only [verify, hv, inUnverified] at h
          exact ((containsKey_evict_iff s.unverifiedBlocks b.id i).mp h).2
        have hv' : inVerified (verify b s).2 i = inVerified s i := by
          simpa [verify, hv, inVerified] using
            mapContainsKey_insert_of_ne s.verifiedBlocks b.id i b hi
        have hd : inDecided (verify b s).2 i = inDecided s i := by
          simp [verify, hv, inDecided]
        calc (cond (inUnverified (verify b s).2 i) 1 0 : Nat)
              + cond (inVerified (verify b s).2 i) 1 0
              + cond (inDecided (verify b s).2 i) 1 0
            ≤ cond (inUnverified s i) 1 0 + cond (inVerified s i) 1 0
              + cond (inDecided s i) 1 0 := by
              exact Nat.add_le_add (Nat.add_le_add (condOne_mono hu)
                (by rw [hv']) ) (by rw [hd])
          _ ≤ 1 := hInv

theorem accept_preserves_atMostOne (b : Block) (s : State) (i : ID)
    (hInv : atMostOneCache s i = true) (hUnv : inUnverified s b.id = false) :
    atMostOneCache (accept b s).2 i = true := by
  simp only [atMostOneCache, decide_eq_true_eq] at hInv ⊢
  by_cases hi : i = b.id
  · subst hi
    have hu : inUnverified (accept b s).2 b.id = false := hUnv
    have hv : inVerified (accept b s).2 b.id = false := mapContainsKey_delete_self _ _
    simp only [hu, hv, cond_false]
    cases inDecided (accept b s).2 b.id <;> simp
  · have hu : inUnverified (accept b s).2 i = inUnverified s i := rfl
    have hv : inVerified (accept b s).2 i = true → inVerified s i = true := by
      intro h
      exact ((mapContainsKey_delete_iff s.verifiedBlocks b.id i).mp h).2
    have hd : inDecided (accept b s).2 i = true → inDecided s i = true := by
      intro h
      exact containsKey_put_of_ne s.decidedBlocks b.id i b hi h
    calc (cond (inUnverified (accept b s).2 i) 1 0 : Nat)
          + cond (inVerified (accept b s).2 i) 1 0
          + cond (inDecided (accept b s).2 i) 1 0
        ≤ cond (inUnverified s i) 1 0 + cond (inVerified s i) 1 0
          + cond (inDecided s i) 1 0 := by
          exact Nat.add_le_add (Nat.add_le_add (by rw [hu]) (condOne_mono hv))
            (condOne_mono hd)
      _ ≤ 1 := hInv

theorem atMostOneCache_step (s : State) (op : Op) (i : ID)
    (hInv : atMostOneCache s i = true) (hOk : okOp s op = true) :
    atMostOneCache (step s op) i = true := by
  cases op with
  | verify b =>
      exact verify_preserves_atMostOne b s i hInv (by simpa [okOp] using hOk)
  | verifyWithContext b =>
      have hDec : inDecided s b.id = false := by simpa [okOp] using hOk
      show atMostOneCache (verifyWithContext b s).2 i = true
      cases hc : b.withVerifyCtx with
      | none => simpa [verifyWithContext, hc] using verify_preserves_atMostOne b s i hInv hDec
      | some cap =>
          rcases hsv : cap.shouldVerifyWithContext with ⟨flag, err⟩
          cases err with
          | some e => simpa [verifyWithContext, hc, hsv] using hInv
          | none =>
              cases flag with
              | true => simpa [verifyWithContext, hc, hsv] using hInv
              | false =>
                  simpa [verifyWithContext, hc, hsv] using
                    verify_preserves_atMostOne b s i hInv hDec
  | shouldVerifyWithContext b => exact hInv
  | accept b =>
      exact accept_preserves_atMostOne b s i hInv (by simpa [okOp] using hOk)
  | reject b =>
      have := accept_preserves_atMostOne b s i hInv (by simpa [okOp] using hOk)
      simpa [atMostOneCache, step, accept, reject, inUnverified, inVerified,
        inDecided] using this

/-- Claim C2 (counterexample): starting from an empty state, the
sequence verify-accept-verify on one block leaves its identifier in both
`verifiedBlocks` and `decidedBlocks`, violating invariant I1. -/
theorem atMostOneCache_violated_by_reverify :
    atMostOneCache
      (run (emptyState 2 2) [Op.verify blkA, Op.accept blkA, Op.verify blkA])
      blkA.id = false := by
  decide

/-- Claim C2 (amended): along any sequence of engine calls in which
verification is never attempted on an already-decided identifier and
`Accept`/`Reject` are never called on an identifier still in the
unverified cache, every identifier satisfying invariant I1 initially
satisfies it in every state the sequence reaches, in particular the
final one. -/
theorem atMostOneCache_preserved_by_legal_runs (s : State) (ops : List Op) (i : ID)
    (hInv : atMostOneCache s i = true) (hLegal : legalRun s ops = true) :
    atMostOneCache (run s ops) i = true := by
  induction ops generalizing s with
  | nil => exact hInv
  | cons op ops ih =>
      simp only [legalRun, Bool.and_eq_true] at hLegal
      exact ih (step s op) (atMostOneCache_step s op i hInv hLegal.1) hLegal.2

/-- Witness for the amended C2: a concrete legal verify-then-accept
sequence from the empty state keeps invariant I1 for the block's
identifier. -/
theorem atMostOneCache_preserved_by_legal_runs_witness :
    atMostOneCache (emptyState 2 2) blkA.id = true ∧
      legalRun (emptyState 2 2) [Op.verify blkA, Op.accept blkA] = true ∧
      atMostOneCache (run (emptyState 2 2) [Op.verify blkA, Op.accept blkA]) blkA.id = true :=
  ⟨by decide, by decide,
    atMostOneCache_preserved_by_legal_runs (emptyState 2 2)
      [Op.verify blkA, Op.accept blkA] blkA.id (by decide) (by decide)⟩

/-! ### Provenance of verifiedBlocks insertions (C8) -/

theorem run_take_succ (s : State) (ops : List Op) (n : Nat) (hn : n < ops.length) :
    run s (ops.take (n + 1)) = step (run s (ops.take n)) (ops.get ⟨n, hn⟩) := by
  induction ops generalizing s n with
  | nil => exact absurd hn (by simp)
  | cons op ops ih =>
      cases n with
      | zero => simp [run]
      | succ m =>
          simp only [List.take_succ_cons, run]
          exact ih (step s op) m (by simpa using hn)

theorem verify_inserts_only_self (b : Block) (s : State) (i : ID)
    (hpre : inVerified s i = false) (hpost : inVerified (verify b s).2 i = true) :
    b.id = i ∧ b.verifyResult = none := by
  cases hv : b.verifyResult with
  | some e =>
      have hs : (verify b s).2 = s := by simp [verify, hv]
      rw [hs, hpre] at hpost
      exact absurd hpost (by simp)
  | none =>
      by_cases hi : i = b.id
      · exact ⟨hi.symm, rfl⟩
      · have hsame : inVerified (verify b s).2 i = inVerified s i := by
          simp only [verify, hv, inVerified]
          exact mapContainsKey_insert_of_ne s.verifiedBlocks b.id i b hi
        rw [hsame, hpre] at hpost
        exact absurd hpost (by simp)

theorem verified_insertion_step (s : State) (op : Op) (i : ID)
    (hpre : inVerified s i = false) (hpost : inVerified (step s op) i = true) :
    ∃ b, (op = Op.verify b ∨ op = Op.verifyWithContext b) ∧
      b.id = i ∧ b.verifyResult = none := by
  cases op with
  | verify b =>
      exact ⟨b, Or.inl rfl, verify_inserts_only_self b s i hpre hpost⟩
  | verifyWithContext b =>
      refine ⟨b, Or.inr rfl, ?_⟩
      have hpost' : inVerified (verifyWithContext b s).2 i = true := hpost
      cases hc : b.withVerifyCtx with
      | none =>
          have hs : (verifyWithContext b s).2 = (verify b s).2 := by
            simp [verifyWithContext, hc]
          rw [hs] at hpost'
          exact verify_inserts_only_self b s i hpre hpost'
      | some cap =>
          rcases hsv : cap.shouldVerifyWithContext with ⟨flag, err⟩
          cases err with
          | some e =>
              have hs : (verifyWithContext b s).2 = s := by
                simp [verifyWithContext, hc, hsv]
              rw [hs, hpre] at hpost'
              exact absurd hpost' (by simp)
          | none =>
              cases flag with
              | true =>
                  have hs : (verifyWithContext b s).2 = s := by
                    simp [verifyWithContext, hc, hsv]
                  rw [hs, hpre] at hpost'
                  exact absurd hpost' (by simp)
              | false =>
                  have hs : (verifyWithContext b s).2 = (verify b s).2 := by
                    simp [verifyWithContext, hc, hsv]
                  rw [hs] at hpost'
                  exact verify_inserts_only_self b s i hpre hpost'
  | shouldVerifyWithContext b =>
      rw [show step s (Op.shouldVerifyWithContext b) = s from rfl, hpre] at hpost
      exact absurd hpost (by simp)
  | accept b =>
      have h2 : inVerified s i = true :=
        ((mapContainsKey_delete_iff s.verifiedBlocks b.id i).mp hpost).2
      rw [hpre] at h2
      exact absurd h2 (by simp)
  | reject b =>
      have h2 : inVerified s i = true :=
        ((mapContainsKey_delete_iff s.verifiedBlocks b.id i).mp hpost).2
      rw [hpre] at h2
      exact absurd h2 (by simp)

/-- Claim C8: along any sequence of engine calls, whenever a step makes
an identifier appear in `verifiedBlocks` that was not there before, that
step is a `Verify` (or a `VerifyWithContext`, whose only inserting path
is its fall-back to `Verify`) of a block with that identifier whose
delegated `Verify` returned success; `Accept`, `Reject` and
`ShouldVerifyWithContext` never insert. -/
theorem verified_insertions_only_from_verify (s : State) (ops : List Op)
    (n : Nat) (i : ID) (hn : n < ops.length)
    (hpre : inVerified (run s (ops.take n)) i = false)
    (hpost : inVerified (run s (ops.take (n + 1))) i = true) :
    ∃ b, (ops.get ⟨n, hn⟩ = Op.verify b ∨ ops.get ⟨n, hn⟩ = Op.verifyWithContext b) ∧
      b.id = i ∧ b.verifyResult = none := by
  rw [run_take_succ s ops n hn] at hpost
  exact verified_insertion_step (run s (ops.take n)) (ops.get ⟨n, hn⟩) i hpre hpost

/-- Witness for C8 at a concrete one-step trace whose single call is a
successful `Verify`. -/
theorem verified_insertions_only_from_verify_witness :
    0 < [Op.verify blkA].length ∧
      inVerified (run (emptyState 2 2) ([Op.verify blkA].take 0)) blkA.id = false ∧
      inVerified (run (emptyState 2 2) ([Op.verify blkA].take 1)) blkA.id = true ∧
      (∃ b, ([Op.verify blkA].get ⟨0, Nat.one_pos⟩ = Op.verify b ∨
          [Op.verify blkA].get ⟨0, Nat.one_pos⟩ = Op.verifyWithContext b) ∧
        b.id = blkA.id ∧ b.verifyResult = none) :=
  ⟨Nat.one_pos, by decide, by decide,
    verified_insertions_only_from_verify (emptyState 2 2) [Op.verify blkA] 0
      blkA.id Nat.one_pos (by decide) (by decide)⟩

end LuxVms
